import Mathlib

/-!
# Shallow embedding of the registry server (project handlers and CLI compile helpers)

This file embeds, in Lean, the Go source of the registry service:

* the five `RegistryServer` project handlers (`CreateProject`, `GetProject`,
  `UpdateProject`, `DeleteProject`, `ListProjects`), translated statement by
  statement from the handler file;
* the CLI helpers `ParentNameFromResourceName` and `compileSpec`.

The storage collaborator (a key-value store with get/put/delete and a
kind-scoped scan) is modelled as an association list from resource-name keys
to records, following the collaborator interface of the specification:
`get(key) -> record | not-found | fault`, `put(key, record) -> key | fault`,
`delete(key) -> fault?`, `scan(kind, resumeToken) -> iterator`.

Repository code that is referenced by the handlers but whose source is not
available (the `models` package, the cursor helpers, the filter compiler and
the page-size clamp) is modelled from the specification; each such definition
carries a doc comment starting with `Modelled from the spec:`.
-/

namespace Registry

/-- Decidable equality for `Except`, so that concrete handler outcomes can be
checked by `decide`. -/
instance {ε α : Type} [DecidableEq ε] [DecidableEq α] : DecidableEq (Except ε α) := fun x y =>
  match x, y with
  | Except.ok a, Except.ok b =>
    if h : a = b then isTrue (by rw [h])
    else isFalse (by intro hh; injection hh; contradiction)
  | Except.error a, Except.error b =>
    if h : a = b then isTrue (by rw [h])
    else isFalse (by intro hh; injection hh; contradiction)
  | Except.ok _, Except.error _ => isFalse (by intro hh; exact Except.noConfusion hh)
  | Except.error _, Except.ok _ => isFalse (by intro hh; exact Except.noConfusion hh)

/-- Status codes a handler can attach to a returned error (gRPC codes used by
the handler file: `InvalidArgument`, `NotFound`, `AlreadyExists`, `Internal`). -/
inductive ErrCode
  | invalidArgument
  | notFound
  | alreadyExists
  | internal
  deriving DecidableEq, Repr

/-- The stored project record (`models.Project`).  Modelled from the spec:
the record holds an identifier, display/description payload, the two
timestamps, and the string-valued `availability` field declared in the list
handler's filter schema.  Timestamps are naturals (the clock value passed to
each mutating call). -/
structure Project where
  projectID : String
  displayName : String
  description : String
  availability : String
  createTime : Nat
  updateTime : Nat
  deriving DecidableEq, Repr

/-- The wire message for a project (`rpc.Project`): the resource name plus the
caller-settable fields. -/
structure ProjectMsg where
  name : String
  displayName : String
  description : String
  availability : String
  deriving DecidableEq, Repr

/-- The storage collaborator's state: an association list from resource-name
keys to records (the entity kind is fixed to `Project` here, so the key is the
resource name string). -/
abbrev Store := List (String × Project)

/-- Single-key read of the storage collaborator. -/
def storeLookup : Store → String → Option Project
  | [], _ => none
  | (k, p) :: rest, key => if k = key then some p else storeLookup rest key

/-- Single-key write of the storage collaborator (replaces an existing entry
for the key, otherwise appends). -/
def storePut : Store → String → Project → Store
  | [], key, p => [(key, p)]
  | (k, q) :: rest, key, p =>
    if k = key then (key, p) :: rest else (k, q) :: storePut rest key p

/-- Single-key delete of the storage collaborator.  Per the collaborator
interface of the spec (`delete(key) -> fault?`) deleting an absent key is not
a fault: the store is simply left without the key. -/
def storeDelete (s : Store) (key : String) : Store :=
  s.filter fun kv => decide (kv.1 ≠ key)

/-- Character-level model of Go's `strings.HasPrefix`. -/
def listIsPre : List Char → List Char → Bool
  | [], _ => true
  | _ :: _, [] => false
  | a :: as, b :: bs => a == b && listIsPre as bs

/-- String wrapper for `listIsPre`. -/
def strIsPre (p s : String) : Bool :=
  listIsPre p.data s.data

/-- Character-level model of Go's `strings.Split` for a one-character
separator: `splitChar sep l` is the list of separator-free chunks of `l`.
Like Go's `strings.Split`, it never returns an empty list. -/
def splitChar (sep : Char) : List Char → List (List Char)
  | [] => [[]]
  | c :: cs =>
    let r := splitChar sep cs
    if c == sep then [] :: r else (c :: r.headD []) :: r.tail

/-- Character-level model of Go's `strings.Join` with a one-character
separator. -/
def joinChar (sep : Char) : List (List Char) → List Char
  | [] => []
  | [x] => x
  | x :: y :: rest => x ++ sep :: joinChar sep (y :: rest)

/-- Modelled from the spec: the identifier syntax enforced by
`models.NewProjectFromProjectID` (source not available) — a segment identifier
is non-empty and drawn from a restricted character set. -/
def validProjectID (id : String) : Bool :=
  !id.data.isEmpty && id.data.all fun c => c.isAlphanum || c == '-' || c == '_'

/-- The canonical resource name of a project (`project.ResourceName()`):
`projects/{id}`. -/
def projectResourceName (id : String) : String :=
  "projects/" ++ id

/-- Modelled from the spec: `models.NewProjectFromResourceName` (source not
available) — parses a resource name of the form `projects/{id}` with a valid
identifier, failing on anything else. -/
def parseProjectResourceName (name : String) : Option String :=
  match splitChar '/' name.data with
  | [a, b] =>
    if a == "projects".data && validProjectID (String.mk b) then some (String.mk b)
    else none
  | _ => none

/-- Modelled from the spec: `models.Project.Update` (source not available) —
applies the supplied field mutations, preserving `createTime` and refreshing
`updateTime`; a field-validation failure aborts before any mutation and
reports an error.  The validation rule itself is not specified, so it is a
parameter `vf` of the model. -/
def projectUpdate (vf : ProjectMsg → Bool) (p : Project) (msg : ProjectMsg)
    (now : Nat) : Project × Option ErrCode :=
  if vf msg then
    ({ p with
        displayName := msg.displayName
        description := msg.description
        availability := msg.availability
        updateTime := now }, none)
  else (p, some ErrCode.invalidArgument)

/-- A fresh (zeroed) record for a given project identifier, as built by
`models.NewProjectFromProjectID` before the request fields are applied. -/
def freshProject (id : String) : Project :=
  { projectID := id, displayName := "", description := "", availability := ""
    createTime := 0, updateTime := 0 }

/-- `RegistryServer.CreateProject`: validates the id, fails with
`AlreadyExists` if the key is present (before any write), otherwise applies
the request fields — the Go source assigns the error of `project.Update` to
`err` and never checks it before `err` is overwritten by the `Put` — sets
`CreateTime = UpdateTime`, and writes the record.  Returns the handler's
result together with the store after the call. -/
def CreateProject (vf : ProjectMsg → Bool) (store : Store) (projectId : String)
    (msg : ProjectMsg) (now : Nat) : Except ErrCode Project × Store :=
  if !validProjectID projectId then (Except.error ErrCode.invalidArgument, store)
  else
    let name := projectResourceName projectId
    match storeLookup store name with
    | some _ => (Except.error ErrCode.alreadyExists, store)
    | none =>
      let upd := projectUpdate vf (freshProject projectId) msg now
      let written := { upd.1 with createTime := upd.1.updateTime }
      (Except.ok written, storePut store name written)

/-- The possible outcomes of the storage collaborator's single-key `get`,
per the spec: the record, the specific no-such-key signal
(`datastore.ErrNoSuchEntity`), or any other fault. -/
inductive StorageGet
  | found (p : Project)
  | noSuchEntity
  | fault
  deriving DecidableEq, Repr

/-- The get of a fault-free store: found when present, the no-such-key signal
when absent. -/
def storeGet (store : Store) (key : String) : StorageGet :=
  match storeLookup store key with
  | some p => StorageGet.found p
  | none => StorageGet.noSuchEntity

/-- The error-classification tail of `GetProject` (lines 72–78 of the handler
file): the no-such-key signal maps to `NotFound`, any other fault to
`Internal`, and a found record is returned. -/
def GetProjectCore : StorageGet → Except ErrCode Project
  | StorageGet.found p => Except.ok p
  | StorageGet.noSuchEntity => Except.error ErrCode.notFound
  | StorageGet.fault => Except.error ErrCode.internal

/-- `RegistryServer.GetProject` over a fault-free store: parses the name
(`InvalidArgument` on failure) and classifies the single-key read via
`GetProjectCore`. -/
def GetProject (store : Store) (name : String) : Except ErrCode Project :=
  match parseProjectResourceName name with
  | none => Except.error ErrCode.invalidArgument
  | some id => GetProjectCore (storeGet store (projectResourceName id))

/-- `RegistryServer.UpdateProject`: parses the name, reads the existing record
— any read error is mapped to `NotFound` (lines 146–149) — applies the field
mutations (`Internal` on failure, per line 152), and writes back. -/
def UpdateProject (vf : ProjectMsg → Bool) (store : Store) (msg : ProjectMsg)
    (now : Nat) : Except ErrCode Project × Store :=
  match parseProjectResourceName msg.name with
  | none => (Except.error ErrCode.invalidArgument, store)
  | some id =>
    let key := projectResourceName id
    match storeLookup store key with
    | none => (Except.error ErrCode.notFound, store)
    | some p =>
      match projectUpdate vf p msg now with
      | (_, some _) => (Except.error ErrCode.internal, store)
      | (p2, none) => (Except.ok p2, storePut store key p2)

/-- Modelled from the spec: `project.DeleteChildren` (source not available) —
removes every record whose key is the target's name extended by a separator
(its descendants). -/
def deleteChildren (store : Store) (name : String) : Store :=
  store.filter fun kv => !strIsPre (name ++ "/") kv.1

/-- `RegistryServer.DeleteProject`: parses the name (`InvalidArgument` on
failure), deletes children, then blindly deletes the key taken from the raw
request name (line 56) and returns the empty acknowledgment; since deleting
an absent key is not a fault for the storage collaborator, `internalError(nil)`
is no error and the handler reports success. -/
def DeleteProject (store : Store) (name : String) : Except ErrCode Unit × Store :=
  match parseProjectResourceName name with
  | none => (Except.error ErrCode.invalidArgument, store)
  | some _ =>
    let s1 := deleteChildren store name
    (Except.ok (), storeDelete s1 name)

/-! ## Cursor codec and page-size clamp -/

/-- Converts a non-empty all-digit character list to a natural (most
significant digit first); `none` on any non-digit. -/
def natOfDigitsAux : List Char → Nat → Option Nat
  | [], acc => some acc
  | c :: rest, acc =>
    if c.isDigit then natOfDigitsAux rest (acc * 10 + (c.toNat - 48)) else none

/-- `natOfDigits cs` parses a non-empty digit string. -/
def natOfDigits : List Char → Option Nat
  | [] => none
  | cs => natOfDigitsAux cs 0

/-- Modelled from the spec: the cursor decoder behind `queryApplyCursor`
(source not available) — the empty token yields the start-of-scan position,
a well-formed token yields the resume position it encodes, and a malformed
token fails.  The resume position is modelled as the number of records the
scan already passed. -/
def decodeCursor (token : String) : Except Unit Nat :=
  if token = "" then Except.ok 0
  else
    match natOfDigits token.data with
    | some n => Except.ok n
    | none => Except.error ()

/-- Modelled from the spec: the cursor encoder behind `iteratorGetCursor`
(source not available) — renders the resume position as an opaque token. -/
def encodeCursor (n : Nat) : String :=
  toString n

/-- Modelled from the spec: `boundPageSize` (source not available) — clamps a
requested page size into `[1, MAX]`, using a fixed default for a
non-positive request and a fixed ceiling above the maximum.  The model fixes
the default at 50 and the ceiling at 1000. -/
def boundPageSize (requested : Int) : Nat :=
  if requested ≤ 0 then 50
  else if requested > 1000 then 1000
  else requested.toNat

/-! ## Filter predicate evaluator -/

/-- Modelled from the spec: the abstract syntax of the filter grammar accepted
by `createFilterOperator` (source not available) — equality, inequality and
containment comparisons of a declared field against a string literal,
combined with boolean connectives. -/
inductive FilterExpr
  | eq (field lit : String)
  | ne (field lit : String)
  | contains (field lit : String)
  | andE (a b : FilterExpr)
  | orE (a b : FilterExpr)
  | notE (a : FilterExpr)
  deriving DecidableEq, Repr

/-- The field names referenced by a filter expression. -/
def FilterExpr.fields : FilterExpr → List String
  | FilterExpr.eq f _ => [f]
  | FilterExpr.ne f _ => [f]
  | FilterExpr.contains f _ => [f]
  | FilterExpr.andE a b => a.fields ++ b.fields
  | FilterExpr.orE a b => a.fields ++ b.fields
  | FilterExpr.notE a => a.fields

/-- Modelled from the spec: `createFilterOperator` (source not available) —
an absent filter compiles to no predicate (`ListProjects` checks
`prg != nil`), and a present expression compiles successfully exactly when
every referenced field is in the declared schema. -/
def createFilterOperator (filter : Option FilterExpr) (schema : List String) :
    Except Unit (Option FilterExpr) :=
  match filter with
  | none => Except.ok none
  | some e =>
    if e.fields.all (fun f => schema.contains f) then Except.ok (some e)
    else Except.error ()

/-- Character-level substring test (for the `contains` comparison). -/
def listHasSub : List Char → List Char → Bool
  | sub, [] => sub.isEmpty
  | sub, c :: rest => listIsPre sub (c :: rest) || listHasSub sub rest

/-- A binding environment for filter evaluation: field name to string value. -/
abbrev Bindings := List (String × String)

/-- Looks a field up in the binding environment. -/
def bindLookup : Bindings → String → Option String
  | [], _ => none
  | (f, v) :: rest, field => if f = field then some v else bindLookup rest field

/-- Modelled from the spec: predicate evaluation (`prg.Eval`, source not
available) — each comparison reads its field from the binding environment and
faults when the field is unbound; connectives are the boolean ones. -/
def FilterExpr.eval (bs : Bindings) : FilterExpr → Except Unit Bool
  | FilterExpr.eq f l =>
    match bindLookup bs f with
    | some v => Except.ok (v = l)
    | none => Except.error ()
  | FilterExpr.ne f l =>
    match bindLookup bs f with
    | some v => Except.ok (v ≠ l)
    | none => Except.error ()
  | FilterExpr.contains f l =>
    match bindLookup bs f with
    | some v => Except.ok (listHasSub l.data v.data)
    | none => Except.error ()
  | FilterExpr.andE a b =>
    match a.eval bs, b.eval bs with
    | Except.ok x, Except.ok y => Except.ok (x && y)
    | _, _ => Except.error ()
  | FilterExpr.orE a b =>
    match a.eval bs, b.eval bs with
    | Except.ok x, Except.ok y => Except.ok (x || y)
    | _, _ => Except.error ()
  | FilterExpr.notE a =>
    match a.eval bs with
    | Except.ok x => Except.ok (!x)
    | _ => Except.error ()

/-! ## ListProjects -/

/-- The schema `ListProjects` declares for its filter (lines 93–96 of the
handler file): `project_id` and `availability`, both string-valued. -/
def schemaProjects : List String :=
  ["project_id", "availability"]

/-- The binding environment `ListProjects` passes to `prg.Eval` (lines
106–108 of the handler file): only `project_id` is bound, even though
`availability` is declared in the schema. -/
def evalBindings (p : Project) : Bindings :=
  [("project_id", p.projectID)]

/-- The per-record filter outcome inside the list loop: no compiled predicate
means every record is kept.  A fault is the evaluator's fault. -/
def keepResult (prg : Option FilterExpr) (p : Project) : Except Unit Bool :=
  match prg with
  | none => Except.ok true
  | some e => e.eval (evalBindings p)

/-- Whether the loop keeps a record (fault counts as not kept; the loop aborts
on a fault before this matters). -/
def matchesFilter (prg : Option FilterExpr) (p : Project) : Bool :=
  match keepResult prg p with
  | Except.ok true => true
  | _ => false

/-- The scan loop of `ListProjects` (lines 104–121): iterates the remaining
scan records, aborts with `InvalidArgument` on an evaluation fault, skips
non-matches, accumulates matches, and breaks once the page is full.  Returns
the accumulated page and `none` when the scan was exhausted, or
`some consumed` (records consumed so far) when the loop broke early. -/
def listLoop (prg : Option FilterExpr) (n : Nat) :
    List Project → List Project → Nat → Except ErrCode (List Project × Option Nat)
  | [], acc, _ => Except.ok (acc, none)
  | p :: rest, acc, seen =>
    match keepResult prg p with
    | Except.error _ => Except.error ErrCode.invalidArgument
    | Except.ok false => listLoop prg n rest acc (seen + 1)
    | Except.ok true =>
      let acc2 := acc ++ [p]
      if acc2.length = n then Except.ok (acc2, some (seen + 1))
      else listLoop prg n rest acc2 (seen + 1)

/-- The response of `ListProjects`: the page and the next-page token. -/
structure ListResult where
  projects : List Project
  nextPageToken : String
  deriving DecidableEq, Repr

/-- `RegistryServer.ListProjects`: decodes the page token (any decode failure
is mapped to `Internal`, line 90), compiles the filter against the declared
schema (any compile failure is mapped to `Internal`, line 98), scans the
store from the resume position, runs the loop, maps a scan fault other than
normal exhaustion to `Internal` (lines 122–124), and otherwise returns the
page with a continuation token (empty when the scan was exhausted).
`scanOk` is the storage collaborator's scan termination: `true` for normal
exhaustion (`iterator.Done`), `false` for a scan fault after the listed
records. -/
def ListProjects (store : Store) (filterE : Option FilterExpr) (pageSize : Int)
    (pageToken : String) (scanOk : Bool) : Except ErrCode ListResult :=
  match decodeCursor pageToken with
  | Except.error _ => Except.error ErrCode.internal
  | Except.ok offset =>
    match createFilterOperator filterE schemaProjects with
    | Except.error _ => Except.error ErrCode.internal
    | Except.ok prg =>
      let bound := boundPageSize pageSize
      let scan := (store.map Prod.snd).drop offset
      match listLoop prg bound scan [] 0 with
      | Except.error c => Except.error c
      | Except.ok (msgs, some consumed) =>
        Except.ok { projects := msgs, nextPageToken := encodeCursor (offset + consumed) }
      | Except.ok (msgs, none) =>
        if scanOk then Except.ok { projects := msgs, nextPageToken := "" }
        else Except.error ErrCode.internal

/-! ## CLI compile command helpers -/

/-- `ParentNameFromResourceName` (CLI source): splits on `/` and joins all but
the last two segments.  When the input has fewer than two `/`-separated
parts, the Go slice `parts[0:len(parts)-2]` is out of bounds and the function
panics; the panic is modelled as `none`. -/
def ParentNameFromResourceName (name : String) : Option String :=
  let parts := splitChar '/' name.data
  if parts.length < 2 then none
  else some (String.mk (joinChar '/' (parts.take (parts.length - 2))))

/-- Opaque payloads of the external compiler library. -/
abbrev Bytes := List Nat

/-- Opaque parsed info of the external compiler library. -/
abbrev SpecInfo := Nat

/-- Opaque compiled document of the external compiler library. -/
abbrev SpecDoc := Nat

/-- The outcome environment for one `compileSpec` run: the result of
`getBytesForSpec` (repository code not under `src/`; modelled from the spec
as a fallible fetch of the stored spec's contents) and the outcomes of the
external compiler library and of the upload. -/
structure CompileEnv where
  getBytes : Except String Bytes
  readInfo : Bytes → Except String SpecInfo
  newDocV2 : SpecInfo → Except String SpecDoc
  newDocV3 : SpecInfo → Except String SpecDoc
  upload : String → String → String → SpecDoc → Except String Unit

/-- The stored spec message as fetched by `client.GetSpec` at the top of
`compileSpec`: its resource name and style. -/
structure SpecMsg where
  name : String
  style : String
  deriving DecidableEq, Repr

/-- A call to `uploadBytesForSpec` (parent, spec id, style). -/
structure UploadCall where
  parent : String
  specID : String
  style : String
  deriving DecidableEq, Repr

/-- How one dialect branch of `compileSpec` exits: an early `return` with a
result, falling through to the next branch, or a panic (from
`ParentNameFromResourceName`). -/
inductive BranchOut
  | ret (r : Except String Unit)
  | fallthrough
  | panic
  deriving Repr

/-- One dialect branch of `compileSpec` (the `openapi/v2` branch is lines
84–101 of the CLI source, the `openapi/v3` branch lines 102–119): when the
style matches, fetch the contents — on a fetch error the Go code does
`return nil`, reporting success — then parse, build the document, and upload,
propagating those errors. -/
def specBranch (env : CompileEnv) (spec : SpecMsg) (stylePre : String)
    (newDoc : SpecInfo → Except String SpecDoc) (specID : String) :
    BranchOut × List UploadCall :=
  if strIsPre stylePre spec.style then
    match env.getBytes with
    | Except.error _ => (BranchOut.ret (Except.ok ()), [])
    | Except.ok data =>
      match env.readInfo data with
      | Except.error e => (BranchOut.ret (Except.error e), [])
      | Except.ok info =>
        match newDoc info with
        | Except.error e => (BranchOut.ret (Except.error e), [])
        | Except.ok doc =>
          match ParentNameFromResourceName spec.name with
          | none => (BranchOut.panic, [])
          | some parent =>
            match env.upload parent specID spec.style doc with
            | Except.error e =>
              (BranchOut.ret (Except.error e), [{ parent := parent, specID := specID, style := spec.style }])
            | Except.ok _ =>
              (BranchOut.fallthrough, [{ parent := parent, specID := specID, style := spec.style }])
  else (BranchOut.fallthrough, [])

/-- `compileSpec` (CLI source, lines 70–121): runs the `openapi/v2` branch,
then — if it fell through — the `openapi/v3` branch, and finally returns
`nil`.  The result is paired with the list of upload calls attempted;
`none` models a panic. -/
def compileSpec (env : CompileEnv) (spec : SpecMsg) :
    Option (Except String Unit × List UploadCall) :=
  match specBranch env spec "openapi/v2" env.newDocV2 "swagger.pb" with
  | (BranchOut.panic, _) => none
  | (BranchOut.ret r, ups) => some (r, ups)
  | (BranchOut.fallthrough, ups1) =>
    match specBranch env spec "openapi/v3" env.newDocV3 "openapi.pb" with
    | (BranchOut.panic, _) => none
    | (BranchOut.ret r, ups2) => some (r, ups1 ++ ups2)
    | (BranchOut.fallthrough, ups2) => some (Except.ok (), ups1 ++ ups2)

/-! ## Store lemmas -/

theorem storeLookup_storePut_self (s : Store) (k : String) (p : Project) :
    storeLookup (storePut s k p) k = some p := by
  induction s with
  | nil => simp [storePut, storeLookup]
  | cons kv rest ih =>
    obtain ⟨k1, q⟩ := kv
    by_cases h : k1 = k
    · simp [storePut, storeLookup, h]
    · simp [storePut, storeLookup, h, ih]

theorem storeLookup_storePut_ne (s : Store) (k k2 : String) (p : Project)
    (h : k ≠ k2) : storeLookup (storePut s k p) k2 = storeLookup s k2 := by
  induction s with
  | nil => simp [storePut, storeLookup, h]
  | cons kv rest ih =>
    obtain ⟨k1, q⟩ := kv
    by_cases h1 : k1 = k
    · subst h1
      simp [storePut, storeLookup, h]
    · simp [storePut, storeLookup, h1, ih]

/-! ## Concrete records used by the evaluated theorems -/

/-- A concrete stored record used in the counterexamples. -/
def demoProject : Project :=
  { projectID := "demo", displayName := "Demo", description := ""
    availability := "x", createTime := 1, updateTime := 1 }

/-- A one-record store holding `demoProject`. -/
def demoStore : Store :=
  [("projects/demo", demoProject)]

/-- A request message that fails field validation under `demoVf`. -/
def badMsg : ProjectMsg :=
  { name := "", displayName := "<bad>", description := "", availability := "" }

/-- A concrete field validator: every display name other than `<bad>` is
accepted. -/
def demoVf (m : ProjectMsg) : Bool :=
  m.displayName != "<bad>"

/-- A valid create request used by the evaluated theorems. -/
def goodMsg : ProjectMsg :=
  { name := "projects/demo", displayName := "Demo", description := "d"
    availability := "x" }

/-- The record `CreateProject demoVf [] "demo" goodMsg 3` writes. -/
def createdDemo : Project :=
  { projectID := "demo", displayName := "Demo", description := "d"
    availability := "x", createTime := 3, updateTime := 3 }

/-- The store after that create. -/
def storeDemo3 : Store :=
  [("projects/demo", createdDemo)]

/-- An update request used by the evaluated theorems. -/
def msg2 : ProjectMsg :=
  { name := "projects/demo", displayName := "Demo2", description := "d"
    availability := "x" }

/-- The record after `UpdateProject demoVf storeDemo3 msg2 5`. -/
def updatedDemo : Project :=
  { projectID := "demo", displayName := "Demo2", description := "d"
    availability := "x", createTime := 3, updateTime := 5 }

/-! ## C1 -/

/-- C1 counterexample: the claim says `Delete` on a key never created returns
not-found; on the code, `DeleteProject` of an absent key succeeds (the delete
of the storage collaborator is blind, and `internalError(nil)` is no error),
so the call returns the empty acknowledgment, not not-found. -/
theorem C1_counterexample :
    storeLookup [] "projects/ghost" = none ∧
    (DeleteProject [] "projects/ghost").fst = Except.ok () ∧
    (DeleteProject [] "projects/ghost").fst ≠ Except.error ErrCode.notFound := by
  decide

/-- C1 amended: `Get` and `Update` on a key never created (or already
deleted) return not-found — never internal, never success — and `Get`
distinguishes the storage collaborator's no-such-key signal (mapped to
not-found) from any other storage fault (mapped to internal); `Delete` on
such a key, however, returns success (the empty acknowledgment), never
not-found. -/
theorem C1_amended_notfound_behavior :
    (∀ (store : Store) (name id : String),
        parseProjectResourceName name = some id →
        storeLookup store (projectResourceName id) = none →
        GetProject store name = Except.error ErrCode.notFound)
  ∧ (GetProjectCore StorageGet.noSuchEntity = Except.error ErrCode.notFound
      ∧ GetProjectCore StorageGet.fault = Except.error ErrCode.internal)
  ∧ (∀ (vf : ProjectMsg → Bool) (store : Store) (msg : ProjectMsg) (now : Nat)
        (id : String),
        parseProjectResourceName msg.name = some id →
        storeLookup store (projectResourceName id) = none →
        UpdateProject vf store msg now = (Except.error ErrCode.notFound, store))
  ∧ (∀ (store : Store) (name id : String),
        parseProjectResourceName name = some id →
        storeLookup store name = none →
        (DeleteProject store name).fst = Except.ok ()) := by
  refine ⟨?_, ⟨rfl, rfl⟩, ?_, ?_⟩
  · intro store name id hp hl
    simp [GetProject, hp, storeGet, hl, GetProjectCore]
  · intro vf store msg now id hp hl
    simp [UpdateProject, hp, hl]
  · intro store name id hp hl
    simp [DeleteProject, hp]

/-- C1 witness: the amended behaviors at the concrete key `projects/ghost`
over the empty store. -/
theorem C1_witness :
    GetProject [] "projects/ghost" = Except.error ErrCode.notFound ∧
    UpdateProject demoVf []
        { name := "projects/ghost", displayName := "", description := ""
          availability := "" } 3
      = (Except.error ErrCode.notFound, []) ∧
    (DeleteProject [] "projects/ghost").fst = Except.ok () :=
  ⟨C1_amended_notfound_behavior.1 [] "projects/ghost" "ghost" (by decide) (by decide),
   C1_amended_notfound_behavior.2.2.1 demoVf []
     { name := "projects/ghost", displayName := "", description := ""
       availability := "" } 3 "ghost" (by decide) (by decide),
   C1_amended_notfound_behavior.2.2.2 [] "projects/ghost" "ghost" (by decide) (by decide)⟩

/-! ## C2 -/

/-- Inversion of a successful create: the identifier was valid, the key was
absent, and the store after the call is the store with the returned record
written at the key. -/
theorem CreateProject_ok (vf : ProjectMsg → Bool) (store : Store) (id : String)
    (msg : ProjectMsg) (now : Nat) (p : Project) (s1 : Store)
    (h : CreateProject vf store id msg now = (Except.ok p, s1)) :
    validProjectID id = true ∧ storeLookup store (projectResourceName id) = none ∧
    s1 = storePut store (projectResourceName id) p := by
  by_cases hv : validProjectID id
  · cases hl : storeLookup store (projectResourceName id) with
    | some q => simp [CreateProject, hv, hl] at h
    | none =>
      refine ⟨hv, rfl, ?_⟩
      simp [CreateProject, hv, hl] at h
      rw [← h.2, h.1]
  · simp [CreateProject, hv] at h

/-- C2: `Create` on a present key fails with already-exists and leaves the
store (hence the existing record and its `createTime`) unchanged; and a
successful `Create(K)` followed immediately by `Create(K)` yields
already-exists on the second call with the store unchanged. -/
theorem C2_create_exists :
    (∀ (vf : ProjectMsg → Bool) (store : Store) (id : String) (msg : ProjectMsg)
        (now : Nat) (p : Project),
        validProjectID id = true →
        storeLookup store (projectResourceName id) = some p →
        CreateProject vf store id msg now = (Except.error ErrCode.alreadyExists, store))
  ∧ (∀ (vf vf2 : ProjectMsg → Bool) (store : Store) (id : String)
        (msg msg2 : ProjectMsg) (now now2 : Nat) (p : Project) (s1 : Store),
        CreateProject vf store id msg now = (Except.ok p, s1) →
        CreateProject vf2 s1 id msg2 now2 = (Except.error ErrCode.alreadyExists, s1)) := by
  constructor
  · intro vf store id msg now p hv hl
    simp [CreateProject, hv, hl]
  · intro vf vf2 store id msg msg2 now now2 p s1 h
    obtain ⟨hv, hl, hs⟩ := CreateProject_ok vf store id msg now p s1 h
    subst hs
    simp [CreateProject, hv, storeLookup_storePut_self]

/-- C2 witness: creating `demo` twice from the empty store — the second call
reports already-exists and leaves the store untouched. -/
theorem C2_witness :
    CreateProject demoVf storeDemo3 "demo" goodMsg 4
      = (Except.error ErrCode.alreadyExists, storeDemo3) :=
  C2_create_exists.2 demoVf demoVf [] "demo" goodMsg goodMsg 3 4 createdDemo
    storeDemo3 (by decide)

/-! ## C7 -/

/-- C7 is a code bug: in `CreateProject` the error of `project.Update` (line
34) is assigned to `err` and never checked before `err` is overwritten by the
`Put` on line 36.  For a request whose fields fail validation the handler
therefore still writes a record and returns success, where the claim (and the
spec, which `UpdateProject` follows by checking the same error) requires an
invalid-argument failure with no write.  Evaluated here at a concrete failing
input. -/
theorem C7_code_bug_eval :
    demoVf badMsg = false ∧
    CreateProject demoVf [] "demo" badMsg 7
      = (Except.ok (freshProject "demo"), [("projects/demo", freshProject "demo")]) ∧
    (CreateProject demoVf [] "demo" badMsg 7).fst ≠ Except.error ErrCode.invalidArgument := by
  decide

/-! ## C4 -/

/-- C4 counterexample: the claim says a malformed page token yields an
invalid-argument condition, never internal; on the code, `ListProjects` maps
the cursor-decode failure through `internalError` (line 90), so the concrete
malformed token `bogus!` yields internal. -/
theorem C4_counterexample :
    ListProjects [] none 0 "bogus!" true = Except.error ErrCode.internal ∧
    ErrCode.internal ≠ ErrCode.invalidArgument := by
  decide

/-- C4 amended: for every malformed page token supplied to `List`, decoding
fails and the call returns an internal condition (the code maps the decode
failure through `internalError`, not `invalidArgumentError`) — never success,
so never a silent restart from the beginning of the scan. -/
theorem C4_amended_bad_token_internal (store : Store) (filterE : Option FilterExpr)
    (ps : Int) (token : String) (scanOk : Bool)
    (h : decodeCursor token = Except.error ()) :
    ListProjects store filterE ps token scanOk = Except.error ErrCode.internal := by
  simp [ListProjects, h]

/-- C4 witness: the amended behavior at the concrete malformed token. -/
theorem C4_witness :
    decodeCursor "bogus!" = Except.error () ∧
    ListProjects demoStore none 5 "bogus!" true = Except.error ErrCode.internal :=
  ⟨by decide, C4_amended_bad_token_internal demoStore none 5 "bogus!" true (by decide)⟩

/-! ## C5 -/

/-- C5 counterexample: the claim says a filter referencing an undeclared
field is surfaced as invalid-argument; on the code, `ListProjects` maps the
compile failure through `internalError` (line 98), so the concrete filter
`owner == "x"` (with `owner` undeclared) yields internal. -/
theorem C5_counterexample :
    ListProjects demoStore (some (FilterExpr.eq "owner" "x")) 10 "" true
      = Except.error ErrCode.internal ∧
    ErrCode.internal ≠ ErrCode.invalidArgument := by
  decide

/-- C5 amended: for every filter expression referencing a field outside the
declared schema, compilation fails and the call returns an internal condition
(the code maps the compile failure through `internalError`, not
`invalidArgumentError`); no record is ever evaluated — the result is the same
for every store. -/
theorem C5_amended_undeclared_field_internal (e : FilterExpr) (store : Store)
    (ps : Int) (token : String) (scanOk : Bool)
    (h : e.fields.all (fun f => schemaProjects.contains f) = false) :
    ListProjects store (some e) ps token scanOk = Except.error ErrCode.internal := by
  cases hd : decodeCursor token with
  | error u => simp [ListProjects, hd]
  | ok off =>
    have hco : createFilterOperator (some e) schemaProjects = Except.error () := by
      simp only [createFilterOperator, h]
      rfl
    simp [ListProjects, hd, hco]

/-- C5 witness: the amended behavior at the concrete undeclared-field filter. -/
theorem C5_witness :
    (FilterExpr.eq "owner" "x").fields.all (fun f => schemaProjects.contains f) = false ∧
    ListProjects demoStore (some (FilterExpr.eq "owner" "x")) 10 "xy" false
      = Except.error ErrCode.internal :=
  ⟨by decide,
   C5_amended_undeclared_field_internal (FilterExpr.eq "owner" "x") demoStore 10 "xy"
     false (by decide)⟩

/-! ## C3 -/

/-- A sequence of `Update` calls, each threaded through the store (failed
calls leave the store unchanged). -/
def runUpdates (vf : ProjectMsg → Bool) (store : Store)
    (steps : List (ProjectMsg × Nat)) : Store :=
  steps.foldl (fun s st => (UpdateProject vf s st.1 st.2).snd) store

/-- A single `UpdateProject` call — successful or not — leaves the
`createTime` of every stored record unchanged. -/
theorem UpdateProject_keeps_createTime (vf : ProjectMsg → Bool) (store : Store)
    (msg : ProjectMsg) (now : Nat) (key : String) (p : Project)
    (h : storeLookup store key = some p) :
    ∃ q, storeLookup (UpdateProject vf store msg now).snd key = some q ∧
      q.createTime = p.createTime := by
  cases hp : parseProjectResourceName msg.name with
  | none => exact ⟨p, by simp [UpdateProject, hp, h], rfl⟩
  | some id =>
    cases hl : storeLookup store (projectResourceName id) with
    | none => exact ⟨p, by simp [UpdateProject, hp, hl, h], rfl⟩
    | some r =>
      by_cases hv : vf msg
      · by_cases hk : projectResourceName id = key
        · subst hk
          rw [h] at hl
          injection hl with hrp
          subst hrp
          refine ⟨(projectUpdate vf p msg now).1, ?_, by simp [projectUpdate, hv]⟩
          simp [UpdateProject, hp, h, projectUpdate, hv, storeLookup_storePut_self]
        · refine ⟨p, ?_, rfl⟩
          simp only [UpdateProject, hp, hl, projectUpdate, hv, if_true]
          rw [storeLookup_storePut_ne _ _ _ _ hk]
          exact h
      · exact ⟨p, by simp [UpdateProject, hp, hl, projectUpdate, hv, h], rfl⟩

/-- Any sequence of `Update` calls leaves the `createTime` of every stored
record unchanged. -/
theorem runUpdates_keeps_createTime (vf : ProjectMsg → Bool) :
    ∀ (steps : List (ProjectMsg × Nat)) (store : Store) (key : String) (p : Project),
      storeLookup store key = some p →
      ∃ q, storeLookup (runUpdates vf store steps) key = some q ∧
        q.createTime = p.createTime
  | [], store, key, p, h => ⟨p, by simpa [runUpdates] using h, rfl⟩
  | (msg, now) :: steps, store, key, p, h => by
    obtain ⟨q, hq, hc⟩ := UpdateProject_keeps_createTime vf store msg now key p h
    obtain ⟨q2, hq2, hc2⟩ := runUpdates_keeps_createTime vf steps _ key q hq
    refine ⟨q2, ?_, hc2.trans hc⟩
    simpa [runUpdates] using hq2

/-- C3: `createTime` is set at creation, where it equals `updateTime`; every
successful `Update` preserves `createTime` and sets `updateTime` to the
call's clock, so `updateTime` stays at or above `createTime` under a
non-decreasing clock and strictly increases under a strictly increasing
clock; and no sequence of `Update` calls ever changes a stored record's
`createTime`. -/
theorem C3_timestamps :
    (∀ (vf : ProjectMsg → Bool) (store : Store) (id : String) (msg : ProjectMsg)
        (now : Nat) (p : Project) (s1 : Store),
        CreateProject vf store id msg now = (Except.ok p, s1) →
        p.createTime = p.updateTime)
  ∧ (∀ (vf : ProjectMsg → Bool) (store : Store) (msg : ProjectMsg) (now : Nat)
        (id : String) (p0 p1 : Project) (s1 : Store),
        parseProjectResourceName msg.name = some id →
        storeLookup store (projectResourceName id) = some p0 →
        UpdateProject vf store msg now = (Except.ok p1, s1) →
        p1.createTime = p0.createTime ∧ p1.updateTime = now ∧
        (p0.createTime ≤ now → p1.createTime ≤ p1.updateTime) ∧
        (p0.updateTime < now → p0.updateTime < p1.updateTime))
  ∧ (∀ (vf : ProjectMsg → Bool) (store : Store) (steps : List (ProjectMsg × Nat))
        (key : String) (p0 p1 : Project),
        storeLookup store key = some p0 →
        storeLookup (runUpdates vf store steps) key = some p1 →
        p1.createTime = p0.createTime) := by
  refine ⟨?_, ?_, ?_⟩
  · intro vf store id msg now p s1 h
    by_cases hv : validProjectID id
    · cases hl : storeLookup store (projectResourceName id) with
      | some q => simp [CreateProject, hv, hl] at h
      | none =>
        simp [CreateProject, hv, hl] at h
        rw [← h.1]
    · simp [CreateProject, hv] at h
  · intro vf store msg now id p0 p1 s1 hp hl h
    by_cases hv : vf msg
    · simp [UpdateProject, hp, hl, projectUpdate, hv] at h
      obtain ⟨h1, _⟩ := h
      subst h1
      refine ⟨rfl, rfl, ?_, ?_⟩ <;> intro hle <;> simpa using hle
    · simp [UpdateProject, hp, hl, projectUpdate, hv] at h
  · intro vf store steps key p0 p1 h0 h1
    obtain ⟨q, hq, hc⟩ := runUpdates_keeps_createTime vf steps store key p0 h0
    rw [h1] at hq
    injection hq with hq
    rw [hq]
    exact hc

/-- C3 witness: the create/update pair over the `demo` project at clocks 3
and 5. -/
theorem C3_witness :
    createdDemo.createTime = createdDemo.updateTime ∧
    updatedDemo.createTime = createdDemo.createTime ∧
    updatedDemo.updateTime = 5 ∧
    updatedDemo.createTime = createdDemo.createTime :=
  ⟨C3_timestamps.1 demoVf [] "demo" goodMsg 3 createdDemo storeDemo3 (by decide),
   (C3_timestamps.2.1 demoVf storeDemo3 msg2 5 "demo" createdDemo updatedDemo
      [("projects/demo", updatedDemo)] (by decide) (by decide) (by decide)).1,
   (C3_timestamps.2.1 demoVf storeDemo3 msg2 5 "demo" createdDemo updatedDemo
      [("projects/demo", updatedDemo)] (by decide) (by decide) (by decide)).2.1,
   C3_timestamps.2.2 demoVf storeDemo3 [(msg2, 5)] "projects/demo" createdDemo
     updatedDemo (by decide) (by decide)⟩

/-! ## C6 -/

/-- C6 counterexample: the claim says the predicate is evaluated with every
declared schema field bound — for projects both `project_id` and
`availability`.  On the code only `project_id` is bound (lines 106–108), so
the declared filter `availability == "x"` — which evaluates to `true` under
the full binding the claim describes — makes the concrete list call abort
with invalid-argument instead of returning the matching record. -/
theorem C6_counterexample :
    ListProjects demoStore (some (FilterExpr.eq "availability" "x")) 10 "" true
      = Except.error ErrCode.invalidArgument ∧
    FilterExpr.eval
        [("project_id", demoProject.projectID),
         ("availability", demoProject.availability)]
        (FilterExpr.eq "availability" "x")
      = Except.ok true := by
  decide

/-- C6 amended: during `List` the compiled predicate is evaluated with only
`project_id` bound (the declared `availability` field is not bound), and any
evaluation fault is reported as an invalid-argument condition that aborts the
list operation rather than silently including or excluding the record. -/
theorem C6_amended_partial_binding :
    (∀ p : Project, evalBindings p = [("project_id", p.projectID)])
  ∧ (∀ (store : Store) (e : FilterExpr) (ps : Int) (token : String) (offset : Nat)
        (p : Project) (rest : List Project) (scanOk : Bool),
        decodeCursor token = Except.ok offset →
        createFilterOperator (some e) schemaProjects = Except.ok (some e) →
        (store.map Prod.snd).drop offset = p :: rest →
        FilterExpr.eval (evalBindings p) e = Except.error () →
        ListProjects store (some e) ps token scanOk
          = Except.error ErrCode.invalidArgument) := by
  constructor
  · intro p
    rfl
  · intro store e ps token offset p rest scanOk hd hc hs he
    simp only [ListProjects, hd, hc, hs]
    simp [listLoop, keepResult, he]

/-- C6 witness: the amended abort behavior at a concrete declared-field
filter whose evaluation faults on the unbound `availability`. -/
theorem C6_witness :
    evalBindings demoProject = [("project_id", demoProject.projectID)] ∧
    ListProjects demoStore (some (FilterExpr.ne "availability" "y")) 7 "" true
      = Except.error ErrCode.invalidArgument :=
  ⟨C6_amended_partial_binding.1 demoProject,
   C6_amended_partial_binding.2 demoStore (FilterExpr.ne "availability" "y") 7 "" 0
     demoProject [] true (by decide) (by decide) (by decide) (by decide)⟩

/-! ## C8 -/

/-- The page-size clamp always yields a positive bound. -/
theorem boundPageSize_pos (ps : Int) : 0 < boundPageSize ps := by
  unfold boundPageSize
  split
  · decide
  · split
    · decide
    · rename_i h1 h2
      omega

/-- One unfolding step of the loop at a cons cell. -/
theorem listLoop_cons_eq (prg : Option FilterExpr) (n : Nat) (p : Project)
    (rest acc : List Project) (seen : Nat) :
    listLoop prg n (p :: rest) acc seen =
      (match keepResult prg p with
        | Except.error _ => Except.error ErrCode.invalidArgument
        | Except.ok false => listLoop prg n rest acc (seen + 1)
        | Except.ok true =>
          if (acc ++ [p]).length = n then Except.ok (acc ++ [p], some (seen + 1))
          else listLoop prg n rest (acc ++ [p]) (seen + 1)) := rfl

/-- Whatever the filter does, a loop that starts below the bound returns a
page of at most `n` records. -/
theorem listLoop_length_le (prg : Option FilterExpr) (n : Nat) :
    ∀ (scan acc : List Project) (seen : Nat) (res : List Project × Option Nat),
      acc.length < n →
      listLoop prg n scan acc seen = Except.ok res →
      res.1.length ≤ n
  | [], acc, seen, res, hlt, h => by
    simp only [listLoop] at h
    injection h with h
    rw [← h]
    exact Nat.le_of_lt hlt
  | p :: rest, acc, seen, res, hlt, h => by
    rw [listLoop_cons_eq] at h
    cases hk : keepResult prg p with
    | error u =>
      rw [hk] at h
      exact Except.noConfusion h
    | ok b =>
      rw [hk] at h
      cases b with
      | false => exact listLoop_length_le prg n rest acc (seen + 1) res hlt h
      | true =>
        have h3 : (if (acc ++ [p]).length = n then
              Except.ok ((acc ++ [p], some (seen + 1)) : List Project × Option Nat)
            else listLoop prg n rest (acc ++ [p]) (seen + 1)) = Except.ok res := h
        by_cases hlen : (acc ++ [p]).length = n
        · rw [if_pos hlen] at h3
          injection h3 with h3
          rw [← h3]
          exact Nat.le_of_eq hlen
        · rw [if_neg hlen] at h3
          have hlt2 : (acc ++ [p]).length < n := by
            have hlen2 : ¬ acc.length + 1 = n := by simpa using hlen
            simp only [List.length_append, List.length_cons, List.length_nil]
            omega
          exact listLoop_length_le prg n rest (acc ++ [p]) (seen + 1) res hlt2 h3

/-- When no scanned record makes the evaluator fault, the loop succeeds and
returns exactly the first `n - acc.length` filter matches appended to the
accumulator; it reports exhaustion (`none`) precisely when the scan holds
fewer matches than that. -/
theorem listLoop_characterize (prg : Option FilterExpr) (n : Nat) :
    ∀ (scan acc : List Project) (seen : Nat),
      (∀ p ∈ scan, keepResult prg p ≠ Except.error ()) →
      acc.length < n →
      ∃ x, listLoop prg n scan acc seen
          = Except.ok (acc ++ (scan.filter (matchesFilter prg)).take (n - acc.length), x)
        ∧ (x = none ↔ (scan.filter (matchesFilter prg)).length < n - acc.length)
  | [], acc, seen, hf, hlt => by
    refine ⟨none, by simp [listLoop], ?_⟩
    simp only [List.filter_nil, List.length_nil, true_iff]
    omega
  | p :: rest, acc, seen, hf, hlt => by
    cases hk : keepResult prg p with
    | error u =>
      cases u
      exact absurd hk (hf p (List.mem_cons_self p rest))
    | ok b =>
      have hfr : ∀ q ∈ rest, keepResult prg q ≠ Except.error () :=
        fun q hq => hf q (List.mem_cons_of_mem p hq)
      cases b with
      | false =>
        have hm : matchesFilter prg p = false := by
          simp [matchesFilter, hk]
        have hfil : (p :: rest).filter (matchesFilter prg)
            = rest.filter (matchesFilter prg) := by
          simp [List.filter_cons, hm]
        obtain ⟨x, hx, hiff⟩ := listLoop_characterize prg n rest acc (seen + 1) hfr hlt
        refine ⟨x, ?_, ?_⟩
        · rw [hfil]
          simp only [listLoop, hk]
          exact hx
        · rw [hfil]
          exact hiff
      | true =>
        have hm : matchesFilter prg p = true := by
          simp [matchesFilter, hk]
        have hfil : (p :: rest).filter (matchesFilter prg)
            = p :: rest.filter (matchesFilter prg) := by
          simp [List.filter_cons, hm]
        by_cases hlen : (acc ++ [p]).length = n
        · have hlen2 : acc.length + 1 = n := by simpa using hlen
          refine ⟨some (seen + 1), ?_, ?_⟩
          · simp only [listLoop, hk]
            rw [if_pos hlen, hfil]
            have h1 : n - acc.length = 1 := by omega
            rw [h1]
            simp
          · rw [hfil]
            simp only [List.length_cons]
            constructor
            · intro hcon
              exact absurd hcon (by simp)
            · intro hcon
              exact absurd hcon (by omega)
        · have hlt2 : (acc ++ [p]).length < n := by
            simp only [List.length_append, List.length_cons, List.length_nil] at hlen ⊢
            omega
          obtain ⟨x, hx, hiff⟩ :=
            listLoop_characterize prg n rest (acc ++ [p]) (seen + 1) hfr hlt2
          refine ⟨x, ?_, ?_⟩
          · simp only [listLoop, hk]
            rw [if_neg hlen, hx, hfil]
            have h1 : n - acc.length = (n - (acc ++ [p]).length) + 1 := by
              simp only [List.length_append, List.length_cons, List.length_nil] at hlt2 ⊢
              omega
            rw [h1, List.take_succ_cons]
            simp
          · rw [hfil]
            simp only [List.length_cons] at hiff ⊢
            rw [hiff]
            simp only [List.length_append, List.length_cons, List.length_nil] at hlt2 ⊢
            omega

/-- C8: every successful `List` page holds at most `boundPageSize(pageSize)`
records; when the token decodes, the filter compiles, and no scanned record
makes the evaluator fault, the page is exactly the first
`boundPageSize(pageSize)` filter matches of the scan; and a scan fault other
than normal exhaustion (reached when the scan runs out before the page
fills) yields an internal condition. -/
theorem C8_list_accumulation :
    (∀ (store : Store) (filterE : Option FilterExpr) (ps : Int) (token : String)
        (scanOk : Bool) (r : ListResult),
        ListProjects store filterE ps token scanOk = Except.ok r →
        r.projects.length ≤ boundPageSize ps)
  ∧ (∀ (store : Store) (filterE : Option FilterExpr) (ps : Int) (token : String)
        (offset : Nat) (prg : Option FilterExpr),
        decodeCursor token = Except.ok offset →
        createFilterOperator filterE schemaProjects = Except.ok prg →
        (∀ p ∈ (store.map Prod.snd).drop offset, keepResult prg p ≠ Except.error ()) →
        ∃ r, ListProjects store filterE ps token true = Except.ok r ∧
          r.projects = (((store.map Prod.snd).drop offset).filter
            (matchesFilter prg)).take (boundPageSize ps))
  ∧ (∀ (store : Store) (filterE : Option FilterExpr) (ps : Int) (token : String)
        (offset : Nat) (prg : Option FilterExpr),
        decodeCursor token = Except.ok offset →
        createFilterOperator filterE schemaProjects = Except.ok prg →
        (∀ p ∈ (store.map Prod.snd).drop offset, keepResult prg p ≠ Except.error ()) →
        (((store.map Prod.snd).drop offset).filter (matchesFilter prg)).length
            < boundPageSize ps →
        ListProjects store filterE ps token false = Except.error ErrCode.internal) := by
  refine ⟨?_, ?_, ?_⟩
  · intro store filterE ps token scanOk r h
    obtain ⟨rp, rt⟩ := r
    cases hd : decodeCursor token with
    | error u => simp [ListProjects, hd] at h
    | ok offset =>
      cases hc : createFilterOperator filterE schemaProjects with
      | error u => simp [ListProjects, hd, hc] at h
      | ok prg =>
        cases hL : listLoop prg (boundPageSize ps)
            ((store.map Prod.snd).drop offset) [] 0 with
        | error c => simp [ListProjects, hd, hc, hL] at h
        | ok pr =>
          have hlen := listLoop_length_le prg (boundPageSize ps) _ [] 0 pr
            (by simpa using boundPageSize_pos ps) hL
          obtain ⟨msgs, x⟩ := pr
          cases x with
          | some consumed =>
            simp [ListProjects, hd, hc, hL] at h
            rw [← h.1]
            exact hlen
          | none =>
            cases scanOk with
            | false => simp [ListProjects, hd, hc, hL] at h
            | true =>
              simp [ListProjects, hd, hc, hL] at h
              rw [← h.1]
              exact hlen
  · intro store filterE ps token offset prg hd hc hf
    obtain ⟨x, hx, hiff⟩ := listLoop_characterize prg (boundPageSize ps)
      ((store.map Prod.snd).drop offset) [] 0 hf
      (by simpa using boundPageSize_pos ps)
    simp only [List.nil_append, List.length_nil, Nat.sub_zero] at hx
    cases x with
    | none =>
      refine ⟨ListResult.mk ((((store.map Prod.snd).drop offset).filter (matchesFilter prg)).take (boundPageSize ps)) "", ?_, rfl⟩
      simp [ListProjects, hd, hc, hx]
    | some consumed =>
      refine ⟨ListResult.mk ((((store.map Prod.snd).drop offset).filter (matchesFilter prg)).take (boundPageSize ps)) (encodeCursor (offset + consumed)), ?_, rfl⟩
      simp [ListProjects, hd, hc, hx]
  · intro store filterE ps token offset prg hd hc hf hflen
    obtain ⟨x, hx, hiff⟩ := listLoop_characterize prg (boundPageSize ps)
      ((store.map Prod.snd).drop offset) [] 0 hf
      (by simpa using boundPageSize_pos ps)
    have hxn : x = none := hiff.mpr (by simpa using hflen)
    subst hxn
    simp only [List.nil_append, Nat.sub_zero] at hx
    simp [ListProjects, hd, hc, hx]

/-- C8 witness: the three behaviors over the one-record `demo` store with
page size 5 and an empty token. -/
theorem C8_witness :
    (({ projects := [demoProject], nextPageToken := "" } : ListResult)).projects.length
        ≤ boundPageSize 5 ∧
    (∃ r, ListProjects demoStore none 5 "" true = Except.ok r ∧
        r.projects = (((demoStore.map Prod.snd).drop 0).filter
          (matchesFilter none)).take (boundPageSize 5)) ∧
    ListProjects demoStore none 5 "" false = Except.error ErrCode.internal :=
  ⟨C8_list_accumulation.1 demoStore none 5 "" true
      { projects := [demoProject], nextPageToken := "" } (by decide),
   C8_list_accumulation.2.1 demoStore none 5 "" 0 none (by decide) (by decide)
     (by decide),
   C8_list_accumulation.2.2 demoStore none 5 "" 0 none (by decide) (by decide)
     (by decide) (by decide)⟩

/-! ## C9 -/

/-- Splitting never yields an empty list of parts (Go's `strings.Split`
returns at least one element). -/
theorem splitChar_ne_nil (sep : Char) (l : List Char) : splitChar sep l ≠ [] := by
  cases l with
  | nil => simp [splitChar]
  | cons c cs =>
    simp only [splitChar]
    split <;> simp

/-- The number of parts is one more than the number of separators. -/
theorem length_splitChar (sep : Char) (l : List Char) :
    (splitChar sep l).length = l.count sep + 1 := by
  induction l with
  | nil => simp [splitChar, List.count_nil]
  | cons c cs ih =>
    simp only [splitChar]
    by_cases hc : (c == sep) = true
    · rw [if_pos hc]
      simp only [List.length_cons]
      rw [List.count_cons, if_pos hc]
      omega
    · rw [if_neg hc]
      simp only [List.length_cons, List.length_tail]
      rw [List.count_cons, if_neg hc]
      have h1 : 1 ≤ (splitChar sep cs).length := by
        cases hsp : splitChar sep cs with
        | nil => exact absurd hsp (splitChar_ne_nil sep cs)
        | cons a b => simp
      omega

/-- C9: `ParentNameFromResourceName` is not total.  For every input containing
at least one `/` it returns the input's `/`-separated parts with the last two
removed, rejoined with `/` (the split has `count + 1` parts, so the first
`count - 1` are kept); for every input without a `/` (fewer than two parts,
e.g. `projects` or the empty string) the Go slice `parts[0:len(parts)-2]` is
out of bounds and the function panics (modelled as `none`) instead of
returning a value or an error. -/
theorem C9_parent_name (name : String) :
    ('/' ∈ name.data →
        ParentNameFromResourceName name
          = some (String.mk (joinChar '/'
              ((splitChar '/' name.data).take (name.data.count '/' - 1)))))
  ∧ ('/' ∉ name.data → ParentNameFromResourceName name = none) := by
  have hlen := length_splitChar '/' name.data
  constructor
  · intro hmem
    have hc : 0 < name.data.count '/' := List.count_pos_iff.mpr hmem
    simp only [ParentNameFromResourceName]
    rw [if_neg (by omega)]
    have h3 : (splitChar '/' name.data).length - 2 = name.data.count '/' - 1 := by
      omega
    rw [h3]
  · intro hmem
    have hc : name.data.count '/' = 0 := by
      by_contra hne
      exact hmem (List.count_pos_iff.mp (Nat.pos_of_ne_zero hne))
    simp only [ParentNameFromResourceName]
    rw [if_pos (by omega)]

/-- C9 witness: the concrete behaviors at `a/b/c` (parent `a`) and at the
slash-free `projects` (panic). -/
theorem C9_witness :
    ParentNameFromResourceName "a/b/c"
      = some (String.mk (joinChar '/'
          ((splitChar '/' "a/b/c".data).take ("a/b/c".data.count '/' - 1)))) ∧
    ParentNameFromResourceName "projects" = none :=
  ⟨(C9_parent_name "a/b/c").1 (by decide),
   (C9_parent_name "projects").2 (by decide)⟩

/-! ## C10 -/

/-- C10: whenever fetching the stored spec's contents fails
(`getBytesForSpec` returns an error) and the spec's style is in the
`openapi/v2` or `openapi/v3` family, `compileSpec` returns `nil` — the CLI
compile operation reports success — having uploaded nothing, instead of
propagating the fetch error. -/
theorem C10_fetch_error_success (env : CompileEnv) (spec : SpecMsg) (e : String)
    (hf : env.getBytes = Except.error e)
    (hs : (strIsPre "openapi/v2" spec.style || strIsPre "openapi/v3" spec.style)
      = true) :
    compileSpec env spec = some (Except.ok (), []) := by
  by_cases h2 : strIsPre "openapi/v2" spec.style = true
  · have hb : specBranch env spec "openapi/v2" env.newDocV2 "swagger.pb"
        = (BranchOut.ret (Except.ok ()), []) := by
      simp [specBranch, h2, hf]
    simp [compileSpec, hb]
  · have h3 : strIsPre "openapi/v3" spec.style = true := by
      simpa [h2] using hs
    have hb1 : specBranch env spec "openapi/v2" env.newDocV2 "swagger.pb"
        = (BranchOut.fallthrough, []) := by
      simp [specBranch, h2]
    have hb2 : specBranch env spec "openapi/v3" env.newDocV3 "openapi.pb"
        = (BranchOut.ret (Except.ok ()), []) := by
      simp [specBranch, h3, hf]
    simp [compileSpec, hb1, hb2]

/-- An environment whose contents fetch fails and whose other collaborators
succeed. -/
def envBad : CompileEnv :=
  { getBytes := Except.error "fetch failed"
    readInfo := fun _ => Except.ok 0
    newDocV2 := fun _ => Except.ok 0
    newDocV3 := fun _ => Except.ok 0
    upload := fun _ _ _ _ => Except.ok () }

/-- A stored spec in the `openapi/v2` family. -/
def specV2 : SpecMsg :=
  { name := "projects/p/apis/a/versions/v/specs/s", style := "openapi/v2" }

/-- A stored spec in the `openapi/v3` family. -/
def specV3 : SpecMsg :=
  { name := "projects/p/apis/a/versions/v/specs/s", style := "openapi/v3" }

/-- C10 witness: the fetch-failure success in both dialect branches. -/
theorem C10_witness :
    compileSpec envBad specV2 = some (Except.ok (), []) ∧
    compileSpec envBad specV3 = some (Except.ok (), []) :=
  ⟨C10_fetch_error_success envBad specV2 "fetch failed" rfl (by decide),
   C10_fetch_error_success envBad specV3 "fetch failed" rfl (by decide)⟩

end Registry
